import Mathlib

/-!
Shallow embedding of `dtmsvr/storage/sql/sql.go` (the SQL-backed storage of the
dtm distributed transaction coordinator).

The database is modelled as an explicit state (`DBState`) holding the
`trans_global` rows (`TransGlobalStore`) and the `trans_branch_op` rows
(`TransBranchStore`).  Each Go method on `Store` becomes a pure Lean function
on this state:

* `now()` of the SQL engine is an explicit `Int` timestamp parameter (seconds);
  the Go code's dialect strings `date_add(now(), interval n second)` /
  `current_timestamp + interval 'n second'` become `now + n`, and
  `dtmutil.GetNextTime(n)` becomes `now + n`.
* the random lease token `shortuuid.New()` is an explicit `String` parameter;
* the nullable timestamp column `next_cron_time` is modelled as an `Int`
  timestamp, and `conf.RetryInterval` as an explicit `Int` parameter;
* Go panics raised through `dtmimp.E2P(storage.ErrNotFound)` etc. are modelled
  as an `Except StoreError Unit` result component; a rolled-back gorm
  transaction leaves the returned state equal to the input state;
* a gorm conditional `UPDATE` mutates the rows matching its `WHERE` clause,
  with `Select(cols)` restricting which columns are written, `LIMIT n`
  bounding the number of updated rows, and `RowsAffected` counting the
  matched rows;
* the in-memory mutation of the `*storage.TransGlobalStore` record passed by
  the caller (a Go pointer) is modelled by returning the mutated record.
-/

namespace DtmSql

/-- One row of the `trans_global` table (Go struct `storage.TransGlobalStore`),
restricted to the columns the specified operations touch. -/
structure TransGlobalStore where
  id : Nat
  gid : String
  status : String
  owner : String
  nextCronTime : Int
  nextCronInterval : Int
  updateTime : Int
  deriving Repr, DecidableEq, Inhabited

/-- One row of the `trans_branch_op` table (Go struct `storage.TransBranchStore`),
restricted to the columns the specified operations touch.  The natural unique
key is `(gid, branchId, op)`. -/
structure TransBranchStore where
  id : Nat
  gid : String
  branchId : String
  op : String
  status : String
  deriving Repr, DecidableEq, Inhabited

/-- The storage errors raised by the Go code (`storage.ErrNotFound`,
`storage.ErrUniqueConflict`). -/
inductive StoreError where
  | NotFound
  | UniqueConflict
  deriving Repr, DecidableEq

/-- The database state: the two tables. -/
structure DBState where
  globals : List TransGlobalStore
  branches : List TransBranchStore
  deriving Repr, DecidableEq, Inhabited

/-- The status set `status in ('prepared', 'aborting', 'submitted')` used by
`LockOneGlobalTrans` and `ResetCronTime`. -/
def statusActive (r : TransGlobalStore) : Bool :=
  r.status == "prepared" || r.status == "aborting" || r.status == "submitted"

/-- gorm `Select(updates).Updates(src)` applied to one row.  gorm restricts
the statement only when the `Select` list is non-empty: then exactly the listed
columns are copied from the in-memory record `src` onto the stored row (zero
or not).  With an empty list the statement is unrestricted and `Updates` with
a struct writes every non-zero field of `src` (the zero values of the modelled
columns are the empty string and the integer 0, the latter also standing for a
nil `*time.Time`).  The primary key `id` is never rewritten by `Updates`. -/
def applySelected (updates : List String) (src row : TransGlobalStore) : TransGlobalStore :=
  if updates.isEmpty then
    { row with
      gid := if src.gid ≠ "" then src.gid else row.gid
      status := if src.status ≠ "" then src.status else row.status
      owner := if src.owner ≠ "" then src.owner else row.owner
      nextCronTime := if src.nextCronTime ≠ 0 then src.nextCronTime else row.nextCronTime
      nextCronInterval :=
        if src.nextCronInterval ≠ 0 then src.nextCronInterval else row.nextCronInterval
      updateTime := if src.updateTime ≠ 0 then src.updateTime else row.updateTime }
  else
    { row with
      gid := if updates.contains "gid" then src.gid else row.gid
      status := if updates.contains "status" then src.status else row.status
      owner := if updates.contains "owner" then src.owner else row.owner
      nextCronTime :=
        if updates.contains "next_cron_time" then src.nextCronTime else row.nextCronTime
      nextCronInterval :=
        if updates.contains "next_cron_interval" then src.nextCronInterval else row.nextCronInterval
      updateTime := if updates.contains "update_time" then src.updateTime else row.updateTime }

/-- Go `ChangeGlobalStatus(global, newStatus, updates, finished)`:
remembers `old := global.Status`, mutates the caller's record to
`global.Status = newStatus`, then issues
`UPDATE ... SET <updates> WHERE status=old AND gid=global.Gid`;
if zero rows were affected it panics with `storage.ErrNotFound`.
Result: (mutated in-memory record, new DB state, outcome). -/
def ChangeGlobalStatus (st : DBState) (global : TransGlobalStore) (newStatus : String)
    (updates : List String) (finished : Bool) :
    TransGlobalStore × DBState × Except StoreError Unit :=
  let old := global.status
  let g := { global with status := newStatus }
  let casHit := fun r => r.status == old && r.gid == g.gid
  if st.globals.any casHit then
    (g, { st with globals := st.globals.map fun r => if casHit r then applySelected updates g r else r },
      Except.ok ())
  else
    (g, st, Except.error StoreError.NotFound)

/-- Go `TouchCronTime(global, nextCronInterval, nextCronTime)`:
sets `global.UpdateTime = now`, `global.NextCronTime = nextCronTime`,
`global.NextCronInterval = nextCronInterval` on the caller's record, then issues
`UPDATE ... SET next_cron_time, update_time, next_cron_interval
 WHERE status=global.Status AND gid=global.Gid`.
No affected-row check and no error path: the function always returns normally.
Result: (mutated in-memory record, new DB state). -/
def TouchCronTime (st : DBState) (global : TransGlobalStore) (nextCronInterval : Int)
    (nextCronTime : Int) (now : Int) : TransGlobalStore × DBState :=
  let g := { global with
    updateTime := now, nextCronTime := nextCronTime, nextCronInterval := nextCronInterval }
  let hit := fun r : TransGlobalStore => r.status == g.status && r.gid == g.gid
  let gs := st.globals.map fun r =>
    if hit r then
      { r with nextCronTime := g.nextCronTime, updateTime := g.updateTime,
               nextCronInterval := g.nextCronInterval }
    else r
  (g, { st with globals := gs })

/-- A SQL `UPDATE ... WHERE p ... LIMIT lim` over a table: walks the rows in
storage order, rewrites (with `f`) at most `lim` rows satisfying `p`, and also
returns `RowsAffected`, the number of rows rewritten. -/
def updateLimited (p : α → Bool) (f : α → α) : Nat → List α → List α × Nat
  | _, [] => ([], 0)
  | 0, l => (l, 0)
  | lim + 1, a :: l =>
    if p a then
      let (l2, n) := updateLimited p f lim l
      (f a :: l2, n + 1)
    else
      let (l2, n) := updateLimited p f (lim + 1) l
      (a :: l2, n)

/-- Go `LockOneGlobalTrans(expireIn)`:
issues `UPDATE trans_global SET owner=<fresh token>, next_cron_time=now()+retryInterval
 WHERE next_cron_time < now()+expireIn AND status IN ('prepared','aborting','submitted')
 LIMIT 1`.
If zero rows were affected it returns `nil` (modelled `none`); otherwise it
re-reads the row with `owner = <fresh token>` and returns it.
`expireIn` is `int(expireIn / time.Second)`, `retryInterval` is
`conf.RetryInterval`, and `owner` is the freshly generated `shortuuid.New()`
token, all passed explicitly. -/
def LockOneGlobalTrans (st : DBState) (now expireIn retryInterval : Int) (owner : String) :
    Option TransGlobalStore × DBState :=
  let elig := fun r : TransGlobalStore =>
    decide (r.nextCronTime < now + expireIn) && statusActive r
  let claim := fun r : TransGlobalStore =>
    { r with owner := owner, nextCronTime := now + retryInterval }
  let res := updateLimited elig claim 1 st.globals
  if res.2 = 0 then
    (none, st)
  else
    (res.1.find? fun r => r.owner == owner, { st with globals := res.1 })

/-- Go `ResetCronTime(timeout, limit)`:
issues `UPDATE trans_global SET next_cron_time=now()
 WHERE next_cron_time > now()+timeout AND status IN ('prepared','aborting','submitted')
 LIMIT limit`;
`succeedCount` is `RowsAffected`. If `succeedCount = limit` it probes (with a
bounded `COUNT`) whether a matching row still exists and reports `hasRemaining`.
Result: (succeedCount, hasRemaining, new DB state). -/
def ResetCronTime (st : DBState) (now timeout : Int) (limit : Nat) :
    Nat × Bool × DBState :=
  let overdue := fun r : TransGlobalStore =>
    decide (now + timeout < r.nextCronTime) && statusActive r
  let res := updateLimited overdue (fun r => { r with nextCronTime := now }) limit st.globals
  let hasRemaining := res.2 == limit && res.1.any overdue
  (res.2, hasRemaining, { st with globals := res.1 })

/-- Key equality of two `trans_branch_op` rows: the unique key `(gid, branchId, op)`. -/
def sameBranchKey (b c : TransBranchStore) : Bool :=
  c.gid == b.gid && c.branchId == b.branchId && c.op == b.op

/-- A bulk `INSERT ... ON CONFLICT DO NOTHING` of branch rows: each row is
appended unless a row with the same unique key `(gid, branchId, op)` is already
present (also when the earlier row came from the same statement). -/
def insertBranchesDoNothing (table : List TransBranchStore) (bs : List TransBranchStore) :
    List TransBranchStore :=
  bs.foldl (fun acc b => if acc.any (sameBranchKey b) then acc else acc ++ [b]) table

/-- gorm `Save` of one branch row: replaces the row with the same unique key if
present, appends it otherwise. -/
def saveBranch (table : List TransBranchStore) (b : TransBranchStore) : List TransBranchStore :=
  if table.any (sameBranchKey b) then
    table.map fun c => if sameBranchKey b c then b else c
  else
    table ++ [b]

/-- gorm `tx.Save(branches)` on a slice: upserts the rows in order. -/
def saveBranches (table : List TransBranchStore) (bs : List TransBranchStore) :
    List TransBranchStore :=
  bs.foldl saveBranch table

/-- Go `MaySaveNewTrans(global, branches)`, inside one DB transaction:
`INSERT` the global row with `ON CONFLICT DO NOTHING`; if zero rows were
inserted, return `storage.ErrUniqueConflict` (rolling back, which changes
nothing since nothing was written); otherwise, when `branches` is non-empty,
bulk-insert the branches with `ON CONFLICT DO NOTHING`.  The global row's
conflict key is its unique `gid`. -/
def MaySaveNewTrans (st : DBState) (global : TransGlobalStore)
    (branches : List TransBranchStore) : DBState × Except StoreError Unit :=
  if st.globals.any fun r => r.gid == global.gid then
    (st, Except.error StoreError.UniqueConflict)
  else
    ({ st with
        globals := st.globals ++ [global]
        branches := insertBranchesDoNothing st.branches branches },
      Except.ok ())

/-- Go `LockGlobalSaveBranches(gid, status, branches, branchStart)`, inside one
DB transaction: `SELECT ... FOR UPDATE` the global row with
`gid=? AND status=?`; if it is absent, the transaction rolls back and
`storage.ErrNotFound` is raised (no branch row is written); otherwise
`tx.Save(branches)` writes the branches while the row lock is held. -/
def LockGlobalSaveBranches (st : DBState) (gid status : String)
    (branches : List TransBranchStore) : DBState × Except StoreError Unit :=
  match st.globals.find? fun r => r.gid == gid && r.status == status with
  | none => (st, Except.error StoreError.NotFound)
  | some _ => ({ st with branches := saveBranches st.branches branches }, Except.ok ())

/-- `math.MaxInt64`, the cursor bound used by `ScanTransGlobalStores` when the
position string is empty. -/
def maxInt64 : Nat := 2 ^ 63 - 1

/-- Insert a row into a list that is sorted by `id` descending, keeping it
sorted.  Together with `sortIdDesc` this models the `ORDER BY id desc` clause:
SQL guarantees exactly that the result is some id-descending reordering of the
selected rows. -/
def insertIdDesc (r : TransGlobalStore) : List TransGlobalStore → List TransGlobalStore
  | [] => [r]
  | s :: l => if s.id ≤ r.id then r :: s :: l else s :: insertIdDesc r l

/-- Sort rows by `id` descending (`ORDER BY id desc`). -/
def sortIdDesc : List TransGlobalStore → List TransGlobalStore
  | [] => []
  | r :: l => insertIdDesc r (sortIdDesc l)

/-- Go `ScanTransGlobalStores(position, limit)`:
`lid := math.MaxInt64` when the cursor is empty, else the cursor's number
(the cursor string's empty/numeric states are modelled as `Option Nat`);
reads `SELECT ... WHERE id < lid ORDER BY id desc LIMIT limit`; then clears the
cursor when fewer than `limit` rows came back, else sets it to the last
returned row's id.  Result: (returned rows, updated cursor). -/
def ScanTransGlobalStores (st : DBState) (position : Option Nat) (limit : Nat) :
    List TransGlobalStore × Option Nat :=
  let lid := position.getD maxInt64
  let globals := (sortIdDesc (st.globals.filter fun r => r.id < lid)).take limit
  if globals.length < limit then
    (globals, none)
  else
    (globals, some (globals.getLast!).id)

/-- Repeated `ScanTransGlobalStores` calls from a cursor, as a paging caller
performs them: stop when the returned cursor is empty; `fuel` bounds the number
of calls.  Returns all rows read and the final cursor (`none` when the scan
terminated with an empty cursor within `fuel` calls). -/
def scanAll (st : DBState) (limit : Nat) : Nat → Option Nat → List TransGlobalStore × Option Nat
  | 0, pos => ([], pos)
  | fuel + 1, pos =>
    match (ScanTransGlobalStores st pos limit).2 with
    | none => ((ScanTransGlobalStores st pos limit).1, none)
    | some p =>
      ((ScanTransGlobalStores st pos limit).1 ++ (scanAll st limit fuel (some p)).1,
        (scanAll st limit fuel (some p)).2)

/-! ### Sample data used by witnesses and counterexamples -/

/-- A sample `trans_global` row in status `prepared`, due at time 5. -/
def sampleRow : TransGlobalStore :=
  { id := 1, gid := "g1", status := "prepared", owner := "", nextCronTime := 5,
    nextCronInterval := 10, updateTime := 0 }

/-- A second sample row, another gid, due much later. -/
def sampleRow2 : TransGlobalStore :=
  { sampleRow with id := 2, gid := "g2", nextCronTime := 100 }

/-- A sample database state holding `sampleRow` only. -/
def sampleState : DBState := { globals := [sampleRow], branches := [] }

/-- A sample database state holding both sample rows. -/
def sampleState2 : DBState := { globals := [sampleRow, sampleRow2], branches := [] }

/-- A sample branch row of `sampleRow`'s transaction. -/
def sampleBranch : TransBranchStore :=
  { id := 1, gid := "g1", branchId := "01", op := "action", status := "prepared" }

/-! ### Helper lemmas about `updateLimited` -/

theorem updateLimited_nil (p : α → Bool) (f : α → α) (n : Nat) :
    updateLimited p f n [] = ([], 0) := by
  cases n <;> rfl

theorem updateLimited_zero (p : α → Bool) (f : α → α) (l : List α) :
    updateLimited p f 0 l = (l, 0) := by
  cases l <;> rfl

theorem updateLimited_succ_cons (p : α → Bool) (f : α → α) (n : Nat) (a : α) (l : List α) :
    updateLimited p f (n + 1) (a :: l) =
      if p a then
        (f a :: (updateLimited p f n l).1, (updateLimited p f n l).2 + 1)
      else
        (a :: (updateLimited p f (n + 1) l).1, (updateLimited p f (n + 1) l).2) := by
  by_cases hp : p a <;> simp [updateLimited, hp]

theorem updateLimited_length (p : α → Bool) (f : α → α) :
    ∀ (l : List α) (n : Nat), (updateLimited p f n l).1.length = l.length := by
  intro l
  induction l with
  | nil => intro n; simp [updateLimited_nil]
  | cons a l ih =>
    intro n
    cases n with
    | zero => simp [updateLimited_zero]
    | succ n =>
      rw [updateLimited_succ_cons]
      by_cases hp : p a <;> simp [hp, ih]

theorem updateLimited_count (p : α → Bool) (f : α → α) :
    ∀ (l : List α) (n : Nat), (updateLimited p f n l).2 = min n (l.countP p) := by
  intro l
  induction l with
  | nil => intro n; simp [updateLimited_nil]
  | cons a l ih =>
    intro n
    cases n with
    | zero => simp [updateLimited_zero]
    | succ n =>
      rw [updateLimited_succ_cons]
      by_cases hp : p a <;> simp [hp, ih, List.countP_cons, Nat.succ_min_succ]

theorem updateLimited_getElem_unchanged (p : α → Bool) (f : α → α) :
    ∀ (l : List α) (n i : Nat) (r : α), l[i]? = some r → p r = false →
      (updateLimited p f n l).1[i]? = some r := by
  intro l
  induction l with
  | nil => intro n i r h; simp at h
  | cons a l ih =>
    intro n i r h hp
    cases n with
    | zero => simpa [updateLimited_zero] using h
    | succ n =>
      rw [updateLimited_succ_cons]
      cases hpa : p a with
      | true =>
        simp only [hpa, if_true]
        cases i with
        | zero =>
          simp only [List.getElem?_cons_zero, Option.some.injEq] at h
          rw [h] at hpa
          rw [hp] at hpa
          exact absurd hpa (by simp)
        | succ i =>
          simp only [List.getElem?_cons_succ] at h ⊢
          exact ih n i r h hp
      | false =>
        simp only [hpa, Bool.false_eq_true, if_false]
        cases i with
        | zero => simpa using h
        | succ i =>
          simp only [List.getElem?_cons_succ] at h ⊢
          exact ih (n + 1) i r h hp

theorem updateLimited_getElem_cases (p : α → Bool) (f : α → α) :
    ∀ (l : List α) (n i : Nat) (r : α), l[i]? = some r →
      (updateLimited p f n l).1[i]? = some r ∨
        (p r = true ∧ (updateLimited p f n l).1[i]? = some (f r)) := by
  intro l
  induction l with
  | nil => intro n i r h; simp at h
  | cons a l ih =>
    intro n i r h
    cases n with
    | zero => left; simpa [updateLimited_zero] using h
    | succ n =>
      rw [updateLimited_succ_cons]
      cases hpa : p a with
      | true =>
        simp only [hpa, if_true]
        cases i with
        | zero =>
          simp only [List.getElem?_cons_zero, Option.some.injEq] at h
          right
          subst h
          exact ⟨hpa, by simp⟩
        | succ i =>
          simp only [List.getElem?_cons_succ] at h ⊢
          exact ih n i r h
      | false =>
        simp only [hpa, Bool.false_eq_true, if_false]
        cases i with
        | zero => left; simpa using h
        | succ i =>
          simp only [List.getElem?_cons_succ] at h ⊢
          exact ih (n + 1) i r h

theorem updateLimited_getElem_all_updated (p : α → Bool) (f : α → α) :
    ∀ (l : List α) (n : Nat), l.countP p ≤ n →
      ∀ (i : Nat) (r : α), l[i]? = some r → p r = true →
        (updateLimited p f n l).1[i]? = some (f r) := by
  intro l
  induction l with
  | nil => intro n _ i r h; simp at h
  | cons a l ih =>
    intro n hc i r h hp
    cases n with
    | zero =>
      have hr : r ∈ a :: l := List.getElem?_mem h
      have hpos : 0 < (a :: l).countP p := List.countP_pos_iff.mpr ⟨r, hr, hp⟩
      omega
    | succ n =>
      rw [updateLimited_succ_cons]
      rw [List.countP_cons] at hc
      cases hpa : p a with
      | true =>
        simp only [hpa, if_true]
        cases i with
        | zero =>
          simp only [List.getElem?_cons_zero, Option.some.injEq] at h
          subst h
          simp
        | succ i =>
          simp only [List.getElem?_cons_succ] at h ⊢
          rw [hpa] at hc
          simp only [if_true] at hc
          exact ih n (by omega) i r h hp
      | false =>
        simp only [hpa, Bool.false_eq_true, if_false]
        cases i with
        | zero =>
          simp only [List.getElem?_cons_zero, Option.some.injEq] at h
          rw [h] at hpa
          rw [hp] at hpa
          exact absurd hpa (by simp)
        | succ i =>
          simp only [List.getElem?_cons_succ] at h ⊢
          rw [hpa] at hc
          simp only [Bool.false_eq_true, if_false, Nat.add_zero] at hc
          exact ih (n + 1) (by omega) i r h hp

/-- Whether a (row before update, row after update) pair shows a change. -/
def changedPair [DecidableEq α] (ab : α × α) : Bool := decide (ab.1 ≠ ab.2)

theorem changedPair_self [DecidableEq α] (a : α) : changedPair (a, a) = false := by
  simp [changedPair]

theorem zip_self_countP_ne [DecidableEq α] :
    ∀ l : List α, (l.zip l).countP changedPair = 0 := by
  intro l
  induction l with
  | nil => rfl
  | cons a l ih =>
    rw [List.zip_cons_cons, List.countP_cons, ih, changedPair_self]
    rfl

theorem updateLimited_changed_le [DecidableEq α] (p : α → Bool) (f : α → α) :
    ∀ (l : List α) (n : Nat),
      (l.zip (updateLimited p f n l).1).countP changedPair ≤ n := by
  intro l
  induction l with
  | nil => intro n; simp [updateLimited_nil]
  | cons a l ih =>
    intro n
    cases n with
    | zero =>
      rw [updateLimited_zero]
      exact Nat.le_of_eq (zip_self_countP_ne (a :: l))
    | succ n =>
      rw [updateLimited_succ_cons]
      cases hpa : p a with
      | true =>
        simp only [hpa, if_true, List.zip_cons_cons, List.countP_cons]
        have := ih n
        cases hc : changedPair (a, f a) <;> simp [hc] <;> omega
      | false =>
        simp only [hpa, Bool.false_eq_true, if_false, List.zip_cons_cons, List.countP_cons,
          changedPair_self]
        have := ih (n + 1)
        simpa using this

theorem updateLimited_find?_none (p : α → Bool) (f : α → α) :
    ∀ (l : List α) (n : Nat), l.find? p = none → updateLimited p f n l = (l, 0) := by
  intro l
  induction l with
  | nil => intro n _; exact updateLimited_nil p f n
  | cons a l ih =>
    intro n h
    rw [List.find?_eq_none] at h
    have hpa : p a = false := by
      have := h a (by simp)
      simpa using this
    have hl : l.find? p = none := by
      rw [List.find?_eq_none]
      intro x hx
      exact h x (by simp [hx])
    cases n with
    | zero => exact updateLimited_zero p f _
    | succ n =>
      rw [updateLimited_succ_cons]
      simp [hpa, ih _ hl]

theorem updateLimited_claimed (p q : α → Bool) (f : α → α) (hq : ∀ x, q (f x) = true) :
    ∀ (l : List α) (r : α), (∀ x ∈ l, q x = false) → l.find? p = some r →
      (updateLimited p f 1 l).2 = 1 ∧ (updateLimited p f 1 l).1.find? q = some (f r) := by
  intro l
  induction l with
  | nil => intro r _ h; simp at h
  | cons a l ih =>
    intro r hfresh h
    cases hpa : p a with
    | true =>
      rw [List.find?_cons_of_pos _ hpa, Option.some.injEq] at h
      subst h
      rw [updateLimited_succ_cons]
      simp only [hpa, if_true, updateLimited_zero]
      exact ⟨trivial, List.find?_cons_of_pos _ (hq a)⟩
    | false =>
      rw [List.find?_cons_of_neg _ (by simp [hpa])] at h
      have hfa : ∀ x ∈ l, q x = false := fun x hx => hfresh x (by simp [hx])
      obtain ⟨hcnt, hfind⟩ := ih r hfa h
      rw [updateLimited_succ_cons]
      simp only [hpa, Bool.false_eq_true, if_false]
      refine ⟨hcnt, ?_⟩
      rw [List.find?_cons_of_neg _ (by simp [hfresh a (by simp)])]
      exact hfind

theorem applySelected_status_of_contains (updates : List String) (src row : TransGlobalStore)
    (h : updates.contains "status" = true) :
    (applySelected updates src row).status = src.status := by
  cases updates with
  | nil => simp at h
  | cons a l =>
    simp only [applySelected, List.isEmpty_cons, Bool.false_eq_true, if_false]
    rw [h]
    simp

/-! ### C1 -/

/-- C1 (counterexample): the claim "when a row does match, the update succeeds
and the row's status becomes the new status" fails as stated: a call whose
non-empty `updates` column list (here `["update_time"]`, for which gorm does
restrict the statement) omits `status` matches the row and succeeds, yet
leaves the stored row's status `"prepared"` instead of the new status
`"succeed"`. -/
theorem changeGlobalStatus_counterexample :
    (ChangeGlobalStatus sampleState sampleRow "succeed" ["update_time"] false).2.2 =
      Except.ok () ∧
    ((ChangeGlobalStatus sampleState sampleRow "succeed" ["update_time"]
      false).2.1.globals.map fun r => r.status) = ["prepared"] ∧
    "prepared" ≠ "succeed" := by
  refine ⟨rfl, by decide, by decide⟩

/-- C1 (amended): `ChangeGlobalStatus` performs a conditional update matching
rows where `gid` equals the record's gid and `status` equals the expected old
status; it fails with `NotFound` if and only if zero rows matched (leaving the
state unchanged); when a row matches, the update succeeds, and the row's status
becomes the new status provided the `status` column is among the selected
update columns. -/
theorem changeGlobalStatus_cas (st : DBState) (global : TransGlobalStore) (newStatus : String)
    (updates : List String) (finished : Bool) :
    ((ChangeGlobalStatus st global newStatus updates finished).2.2 =
        Except.error StoreError.NotFound ↔
      ∀ r ∈ st.globals, ¬(r.status = global.status ∧ r.gid = global.gid)) ∧
    ((ChangeGlobalStatus st global newStatus updates finished).2.2 =
        Except.error StoreError.NotFound →
      (ChangeGlobalStatus st global newStatus updates finished).2.1 = st) ∧
    (ChangeGlobalStatus st global newStatus updates finished).2.1.globals.length =
      st.globals.length ∧
    (∀ (i : Nat) (r : TransGlobalStore), st.globals[i]? = some r →
      r.status = global.status → r.gid = global.gid →
      (ChangeGlobalStatus st global newStatus updates finished).2.2 = Except.ok () ∧
      (updates.contains "status" = true →
        ∃ r2 : TransGlobalStore,
          (ChangeGlobalStatus st global newStatus updates finished).2.1.globals[i]? =
            some r2 ∧ r2.status = newStatus)) := by
  simp only [ChangeGlobalStatus]
  cases hany : st.globals.any fun r => r.status == global.status && r.gid == global.gid with
  | true =>
    simp only [if_true]
    refine ⟨?_, ?_, by simp, ?_⟩
    · constructor
      · intro h; exact absurd h (by simp)
      · intro hall
        rw [List.any_eq_true] at hany
        obtain ⟨r, hr, hmatch⟩ := hany
        simp only [Bool.and_eq_true, beq_iff_eq] at hmatch
        exact absurd hmatch (hall r hr)
    · intro h; exact absurd h (by simp)
    · intro i r hget hs hg
      refine ⟨by trivial, fun hcol => ?_⟩
      refine ⟨applySelected updates { global with status := newStatus } r, ?_, ?_⟩
      · rw [List.getElem?_map, hget]
        simp [hs, hg]
      · exact applySelected_status_of_contains updates _ r hcol
  | false =>
    simp only [Bool.false_eq_true, if_false]
    rw [List.any_eq_false] at hany
    refine ⟨?_, fun _ => by trivial, by trivial, ?_⟩
    · constructor
      · intro _ r hr
        have := hany r hr
        simpa using this
      · intro _
        trivial
    · intro i r hget hs hg
      have := hany r (List.getElem?_mem hget)
      simp [hs, hg] at this

/-- C1 (witness): applying the amended theorem at a concrete input where the
row matches and `updates` contains `status`. -/
theorem changeGlobalStatus_cas_witness :
    (ChangeGlobalStatus sampleState sampleRow "succeed" ["status"] false).2.2 = Except.ok () ∧
    (∃ r2 : TransGlobalStore,
      (ChangeGlobalStatus sampleState sampleRow "succeed" ["status"] false).2.1.globals[0]? =
        some r2 ∧ r2.status = "succeed") := by
  have h := (changeGlobalStatus_cas sampleState sampleRow "succeed" ["status"] false).2.2.2
    0 sampleRow (by decide) (by decide) (by decide)
  exact ⟨h.1, h.2 (by decide)⟩

/-! ### C9 -/

/-- C9: `ChangeGlobalStatus` overwrites the status field of the caller's
in-memory record with the new status before issuing the conditional update, so
the mutation persists in every outcome — also when the operation fails with
`NotFound`. -/
theorem changeGlobalStatus_mutates_caller (st : DBState) (global : TransGlobalStore)
    (newStatus : String) (updates : List String) (finished : Bool) :
    (ChangeGlobalStatus st global newStatus updates finished).1 =
      { global with status := newStatus } := by
  simp only [ChangeGlobalStatus]
  split <;> rfl

/-! ### C2 -/

/-- C2 (counterexample): the claim "a row is eligible for claiming only when
... its nextCronTime is earlier than the cutoff, where the cutoff is computed
as now() at the time of the call" fails as stated: with `now = 0` and
`expireIn = 10`, the sample row (nextCronTime 5, not earlier than now) is
nevertheless claimed, because the code's cutoff is `now() + expireIn`. -/
theorem lockOneGlobalTrans_cutoff_counterexample :
    (LockOneGlobalTrans sampleState 0 10 7 "tok").1.isSome = true ∧
    (∀ r ∈ sampleState.globals, ¬(r.nextCronTime < 0)) := by
  refine ⟨by decide, by decide⟩

/-- C2 (amended): a row is eligible for claiming only when its status is one of
prepared/aborting/submitted and its nextCronTime is earlier than the cutoff,
where the cutoff is `now()` plus the caller-supplied expire-in duration; at
most one row is claimed per call, and the claimed row's owner becomes the fresh
random token and its nextCronTime becomes `now()` plus the retry interval. -/
theorem lockOneGlobalTrans_claims_one_due (st : DBState)
    (now expireIn retryInterval : Int) (owner : String) :
    (LockOneGlobalTrans st now expireIn retryInterval owner).2.globals.length =
      st.globals.length ∧
    (st.globals.zip
        (LockOneGlobalTrans st now expireIn retryInterval owner).2.globals).countP
      changedPair ≤ 1 ∧
    (∀ (i : Nat) (r r2 : TransGlobalStore), st.globals[i]? = some r →
      (LockOneGlobalTrans st now expireIn retryInterval owner).2.globals[i]? = some r2 →
      r2 ≠ r →
      (decide (r.nextCronTime < now + expireIn) && statusActive r) = true ∧
      r2 = { r with owner := owner, nextCronTime := now + retryInterval }) := by
  simp only [LockOneGlobalTrans]
  by_cases hz : (updateLimited
      (fun r : TransGlobalStore => decide (r.nextCronTime < now + expireIn) && statusActive r)
      (fun r : TransGlobalStore => { r with owner := owner, nextCronTime := now + retryInterval })
      1 st.globals).2 = 0
  · rw [if_pos hz]
    refine ⟨rfl, ?_, ?_⟩
    · exact Nat.le_of_eq (zip_self_countP_ne st.globals) |>.trans (Nat.zero_le 1)
    · intro i r r2 hget hget2 hne
      rw [hget] at hget2
      exact absurd (Option.some.injEq r r2 ▸ hget2).symm hne
  · rw [if_neg hz]
    refine ⟨updateLimited_length _ _ st.globals 1, updateLimited_changed_le _ _ st.globals 1, ?_⟩
    intro i r r2 hget hget2 hne
    rcases updateLimited_getElem_cases
        (fun r : TransGlobalStore => decide (r.nextCronTime < now + expireIn) && statusActive r)
        (fun r : TransGlobalStore => { r with owner := owner, nextCronTime := now + retryInterval })
        st.globals 1 i r hget with hsame | ⟨helig, hupd⟩
    · rw [hsame] at hget2
      exact absurd (Option.some.injEq r r2 ▸ hget2).symm hne
    · rw [hupd] at hget2
      exact ⟨helig, ((Option.some.injEq _ r2 ▸ hget2)).symm⟩

/-- C2 (witness): the amended theorem applied at a concrete state where the
sample row is due (cutoff `0 + 10`) and gets claimed. -/
theorem lockOneGlobalTrans_claims_one_due_witness :
    (decide (sampleRow.nextCronTime < (0 : Int) + 10) && statusActive sampleRow) = true ∧
    { sampleRow with owner := "tok", nextCronTime := (0 : Int) + 7 } =
      { sampleRow with owner := "tok", nextCronTime := (0 : Int) + 7 } := by
  have h := (lockOneGlobalTrans_claims_one_due sampleState 0 10 7 "tok").2.2
    0 sampleRow { sampleRow with owner := "tok", nextCronTime := (0 : Int) + 7 }
    (by decide) (by decide) (by decide)
  exact h

/-! ### C7 -/

/-- C7: when the conditional claiming update of `LockOneGlobalTrans` affects
zero rows (no row satisfies the eligibility predicate), the call returns `none`
with the state untouched; otherwise it re-reads the row whose owner equals the
freshly generated token — which, the token being fresh, is exactly the claimed
row — and returns its full contents. -/
theorem lockOneGlobalTrans_reread (st : DBState) (now expireIn retryInterval : Int)
    (owner : String) (fresh : ∀ r ∈ st.globals, r.owner ≠ owner) :
    (st.globals.find?
        (fun r => decide (r.nextCronTime < now + expireIn) && statusActive r) = none →
      LockOneGlobalTrans st now expireIn retryInterval owner = (none, st)) ∧
    (∀ r : TransGlobalStore,
      st.globals.find?
        (fun r => decide (r.nextCronTime < now + expireIn) && statusActive r) = some r →
      (LockOneGlobalTrans st now expireIn retryInterval owner).1 =
        some { r with owner := owner, nextCronTime := now + retryInterval }) := by
  constructor
  · intro hnone
    have hupd := updateLimited_find?_none
      (fun r : TransGlobalStore => decide (r.nextCronTime < now + expireIn) && statusActive r)
      (fun r : TransGlobalStore => { r with owner := owner, nextCronTime := now + retryInterval })
      st.globals 1 hnone
    simp only [LockOneGlobalTrans, hupd]
    simp
  · intro r hfind
    have hfresh : ∀ x ∈ st.globals, (x.owner == owner) = false := by
      intro x hx
      exact beq_eq_false_iff_ne.mpr (fresh x hx)
    have hq : ∀ x : TransGlobalStore,
        (({ x with owner := owner, nextCronTime := now + retryInterval }).owner == owner)
          = true := by
      intro x
      simp
    obtain ⟨hcnt, hfound⟩ := updateLimited_claimed
      (fun r : TransGlobalStore => decide (r.nextCronTime < now + expireIn) && statusActive r)
      (fun x : TransGlobalStore => x.owner == owner)
      (fun r : TransGlobalStore => { r with owner := owner, nextCronTime := now + retryInterval })
      hq st.globals r hfresh hfind
    simp only [LockOneGlobalTrans, hcnt]
    rw [if_neg (by omega)]
    exact hfound

/-- C7 (witness): at the sample state with a fresh token, the first (only)
eligible row is claimed and returned with the token as owner and advanced
nextCronTime. -/
theorem lockOneGlobalTrans_reread_witness :
    (LockOneGlobalTrans sampleState 0 10 7 "tok").1 =
      some { sampleRow with owner := "tok", nextCronTime := (0 : Int) + 7 } :=
  (lockOneGlobalTrans_reread sampleState 0 10 7 "tok" (by decide)).2 sampleRow (by decide)

/-! ### C5 -/

/-- C5: `ResetCronTime` resets `nextCronTime = now()` exactly on rows with an
active status and `nextCronTime > now() + ceiling`, at most `pageLimit` rows
per call (all matching rows when fewer than the limit match); the returned
count is the number of rows reset, and `hasRemaining` is true exactly when the
page limit was reached and a matching row still exists. -/
theorem resetCronTime_spec (st : DBState) (now timeout : Int) (limit : Nat) :
    (ResetCronTime st now timeout limit).1 =
      min limit (st.globals.countP fun r =>
        decide (now + timeout < r.nextCronTime) && statusActive r) ∧
    (ResetCronTime st now timeout limit).2.2.globals.length = st.globals.length ∧
    (∀ (i : Nat) (r : TransGlobalStore), st.globals[i]? = some r →
      (decide (now + timeout < r.nextCronTime) && statusActive r) = false →
      (ResetCronTime st now timeout limit).2.2.globals[i]? = some r) ∧
    (∀ (i : Nat) (r : TransGlobalStore), st.globals[i]? = some r →
      (ResetCronTime st now timeout limit).2.2.globals[i]? = some r ∨
        ((decide (now + timeout < r.nextCronTime) && statusActive r) = true ∧
          (ResetCronTime st now timeout limit).2.2.globals[i]? =
            some { r with nextCronTime := now })) ∧
    ((st.globals.countP fun r =>
        decide (now + timeout < r.nextCronTime) && statusActive r) ≤ limit →
      ∀ (i : Nat) (r : TransGlobalStore), st.globals[i]? = some r →
        (decide (now + timeout < r.nextCronTime) && statusActive r) = true →
        (ResetCronTime st now timeout limit).2.2.globals[i]? =
          some { r with nextCronTime := now }) ∧
    ((ResetCronTime st now timeout limit).2.1 = true ↔
      ((ResetCronTime st now timeout limit).1 = limit ∧
        ∃ r ∈ (ResetCronTime st now timeout limit).2.2.globals,
          (decide (now + timeout < r.nextCronTime) && statusActive r) = true)) := by
  simp only [ResetCronTime]
  refine ⟨updateLimited_count _ _ st.globals limit,
    updateLimited_length _ _ st.globals limit, ?_, ?_, ?_, ?_⟩
  · intro i r hget hov
    exact updateLimited_getElem_unchanged _ _ st.globals limit i r hget hov
  · intro i r hget
    exact updateLimited_getElem_cases _ _ st.globals limit i r hget
  · intro hcnt i r hget hov
    exact updateLimited_getElem_all_updated _ _ st.globals limit hcnt i r hget hov
  · simp [List.any_eq_true]

/-- C5 (witness): at a concrete state where exactly the second row is overdue
(100 > 0 + 50) and the page limit is 1, that row is reset to `now`. -/
theorem resetCronTime_spec_witness :
    (ResetCronTime sampleState2 0 50 1).2.2.globals[1]? =
      some { sampleRow2 with nextCronTime := (0 : Int) } :=
  (resetCronTime_spec sampleState2 0 50 1).2.2.2.2.1 (by decide) 1 sampleRow2
    (by decide) (by decide)

/-! ### C8 -/

/-- Unfolding lemma: `TouchCronTime` mutates the caller's record and rewrites
the three cron columns of every row matching `(gid, status)` of the passed
record. -/
theorem TouchCronTime_eq (st : DBState) (global : TransGlobalStore)
    (nextCronInterval nextCronTime now : Int) :
    TouchCronTime st global nextCronInterval nextCronTime now =
      ({ global with
         updateTime := now, nextCronTime := nextCronTime,
         nextCronInterval := nextCronInterval },
       { st with globals := st.globals.map fun r =>
          if r.status == global.status && r.gid == global.gid then
            { r with
              nextCronTime := nextCronTime, updateTime := now,
              nextCronInterval := nextCronInterval }
          else r }) := rfl

theorem map_id_of_forall {l : List α} {f : α → α} (h : ∀ a ∈ l, f a = a) : l.map f = l := by
  induction l with
  | nil => rfl
  | cons a l ih =>
    rw [List.map_cons, h a (by simp), ih fun x hx => h x (by simp [hx])]

/-- C8: `TouchCronTime` matches rows on the `(gid, status)` pair of the passed
record and returns without signalling any failure — its result type has no
error component, and when zero rows match the state is simply unchanged; when a
row matches, its nextCronTime and nextCronInterval become the supplied
values. -/
theorem touchCronTime_spec (st : DBState) (global : TransGlobalStore)
    (nextCronInterval nextCronTime now : Int) :
    ((∀ r ∈ st.globals, ¬(r.status = global.status ∧ r.gid = global.gid)) →
      (TouchCronTime st global nextCronInterval nextCronTime now).2 = st) ∧
    (TouchCronTime st global nextCronInterval nextCronTime now).2.globals.length =
      st.globals.length ∧
    (∀ (i : Nat) (r : TransGlobalStore), st.globals[i]? = some r →
      r.status = global.status → r.gid = global.gid →
      ∃ r2 : TransGlobalStore,
        (TouchCronTime st global nextCronInterval nextCronTime now).2.globals[i]? = some r2 ∧
        r2.nextCronTime = nextCronTime ∧ r2.nextCronInterval = nextCronInterval) := by
  rw [TouchCronTime_eq]
  refine ⟨?_, by simp, ?_⟩
  · intro hnone
    have hmap : (st.globals.map fun r =>
        if r.status == global.status && r.gid == global.gid then
          { r with
            nextCronTime := nextCronTime, updateTime := now,
            nextCronInterval := nextCronInterval }
        else r) = st.globals := by
      apply map_id_of_forall
      intro r hr
      rw [if_neg ?hcond]
      case hcond =>
        have := hnone r hr
        simp only [Bool.and_eq_true, beq_iff_eq]
        tauto
    show { st with globals := (st.globals.map fun r =>
        if r.status == global.status && r.gid == global.gid then
          { r with
            nextCronTime := nextCronTime, updateTime := now,
            nextCronInterval := nextCronInterval }
        else r) } = st
    rw [hmap]
  · intro i r hget hs hg
    refine ⟨{ r with
              nextCronTime := nextCronTime, updateTime := now,
              nextCronInterval := nextCronInterval }, ?_, rfl, rfl⟩
    show (st.globals.map _)[i]? = _
    rw [List.getElem?_map, hget]
    simp [hs, hg]

/-- C8 (witness): touching the sample row's cron time at a matching state
yields a row holding the supplied values. -/
theorem touchCronTime_spec_witness :
    ∃ r2 : TransGlobalStore,
      (TouchCronTime sampleState sampleRow 42 99 7).2.globals[0]? = some r2 ∧
      r2.nextCronTime = 99 ∧ r2.nextCronInterval = 42 :=
  (touchCronTime_spec sampleState sampleRow 42 99 7).2.2 0 sampleRow
    (by decide) (by decide) (by decide)

/-! ### C10 -/

/-- C10: on a matching row `TouchCronTime` writes exactly the columns
`next_cron_time`, `update_time` (set to the current time) and
`next_cron_interval`, leaving `id`, `gid`, `status`, `owner` and every other
column unchanged; non-matching rows are untouched entirely. -/
theorem touchCronTime_frame (st : DBState) (global : TransGlobalStore)
    (nextCronInterval nextCronTime now : Int) :
    (TouchCronTime st global nextCronInterval nextCronTime now).2.globals.length =
      st.globals.length ∧
    (∀ (i : Nat) (r : TransGlobalStore), st.globals[i]? = some r →
      ((r.status = global.status ∧ r.gid = global.gid) →
        (TouchCronTime st global nextCronInterval nextCronTime now).2.globals[i]? =
          some { r with
                 nextCronTime := nextCronTime, updateTime := now,
                 nextCronInterval := nextCronInterval }) ∧
      (¬(r.status = global.status ∧ r.gid = global.gid) →
        (TouchCronTime st global nextCronInterval nextCronTime now).2.globals[i]? =
          some r)) := by
  rw [TouchCronTime_eq]
  refine ⟨by simp, ?_⟩
  intro i r hget
  constructor
  · intro ⟨hs, hg⟩
    show (st.globals.map _)[i]? = _
    rw [List.getElem?_map, hget]
    simp [hs, hg]
  · intro hnot
    show (st.globals.map _)[i]? = _
    rw [List.getElem?_map, hget]
    have hcond : (r.status == global.status && r.gid == global.gid) = false := by
      cases hb : r.status == global.status <;> cases hb2 : r.gid == global.gid <;>
        simp_all [beq_iff_eq]
    rw [Option.map_some']
    exact congrArg some (if_neg (by simp [hcond]))

/-- C10 (witness): the frame theorem applied at the sample state, on the
matching row. -/
theorem touchCronTime_frame_witness :
    (TouchCronTime sampleState sampleRow 42 99 7).2.globals[0]? =
      some { sampleRow with
             nextCronTime := (99 : Int), updateTime := (7 : Int),
             nextCronInterval := (42 : Int) } :=
  ((touchCronTime_frame sampleState sampleRow 42 99 7).2 0 sampleRow (by decide)).1
    (by decide)

/-! ### Branch-key helper lemmas -/

theorem sameBranchKey_iff (b c : TransBranchStore) :
    sameBranchKey b c = true ↔ c.gid = b.gid ∧ c.branchId = b.branchId ∧ c.op = b.op := by
  simp [sameBranchKey, and_assoc]

theorem sameBranchKey_refl (b : TransBranchStore) : sameBranchKey b b = true := by
  simp [sameBranchKey]

theorem sameBranchKey_transfer {b b2 c : TransBranchStore} (h : sameBranchKey b b2 = true) :
    sameBranchKey b c = true ↔ sameBranchKey b2 c = true := by
  rw [sameBranchKey_iff] at h ⊢
  rw [sameBranchKey_iff]
  obtain ⟨h1, h2, h3⟩ := h
  rw [h1, h2, h3]

theorem insertBranchesDoNothing_nil (table : List TransBranchStore) :
    insertBranchesDoNothing table [] = table := rfl

theorem insertBranchesDoNothing_cons (table : List TransBranchStore)
    (b : TransBranchStore) (bs : List TransBranchStore) :
    insertBranchesDoNothing table (b :: bs) =
      insertBranchesDoNothing
        (if table.any (sameBranchKey b) then table else table ++ [b]) bs := by
  simp only [insertBranchesDoNothing, List.foldl_cons]

theorem insertBranchesDoNothing_mem {c : TransBranchStore} :
    ∀ (bs table : List TransBranchStore), c ∈ table →
      c ∈ insertBranchesDoNothing table bs := by
  intro bs
  induction bs with
  | nil => intro table h; exact h
  | cons b rest ih =>
    intro table h
    rw [insertBranchesDoNothing_cons]
    apply ih
    by_cases hany : table.any (sameBranchKey b)
    · rw [if_pos hany]; exact h
    · rw [if_neg hany]; exact List.mem_append_left _ h

theorem insertBranchesDoNothing_countP_stable (b : TransBranchStore) :
    ∀ (bs table : List TransBranchStore), table.countP (sameBranchKey b) = 1 →
      (insertBranchesDoNothing table bs).countP (sameBranchKey b) = 1 := by
  intro bs
  induction bs with
  | nil => intro table h; exact h
  | cons b2 rest ih =>
    intro table h
    rw [insertBranchesDoNothing_cons]
    by_cases hany : table.any (sameBranchKey b2)
    · rw [if_pos hany]; exact ih table h
    · rw [if_neg hany]
      apply ih
      rw [List.countP_append, h]
      have hkey : sameBranchKey b b2 = false := by
        cases hk : sameBranchKey b b2 with
        | false => rfl
        | true =>
          obtain ⟨c, hc, hbc⟩ := List.countP_pos_iff.mp (h ▸ Nat.one_pos)
          have : sameBranchKey b2 c = true := (sameBranchKey_transfer hk).mp hbc
          exact absurd (List.any_eq_true.mpr ⟨c, hc, this⟩) hany
      simp [List.countP_cons, hkey]

theorem insertBranchesDoNothing_countP_creates (b : TransBranchStore) :
    ∀ (bs table : List TransBranchStore), b ∈ bs →
      table.countP (sameBranchKey b) = 0 →
      (insertBranchesDoNothing table bs).countP (sameBranchKey b) = 1 := by
  intro bs
  induction bs with
  | nil => intro table h; simp at h
  | cons b2 rest ih =>
    intro table hmem h
    rw [insertBranchesDoNothing_cons]
    by_cases hany : table.any (sameBranchKey b2)
    · rw [if_pos hany]
      rcases List.mem_cons.mp hmem with hbb | hbrest
      · subst hbb
        obtain ⟨c, hc, hbc⟩ := List.any_eq_true.mp hany
        have : 0 < table.countP (sameBranchKey b) := List.countP_pos_iff.mpr ⟨c, hc, hbc⟩
        omega
      · exact ih table hbrest h
    · rw [if_neg hany]
      cases hk : sameBranchKey b b2 with
      | true =>
        apply insertBranchesDoNothing_countP_stable
        rw [List.countP_append, h, List.countP_cons]
        simp [hk]
      | false =>
        rcases List.mem_cons.mp hmem with hbb | hbrest
        · subst hbb
          rw [sameBranchKey_refl] at hk
          exact absurd hk (by simp)
        · apply ih _ hbrest
          rw [List.countP_append, h, List.countP_cons]
          simp [hk]

theorem insertBranchesDoNothing_presence (b : TransBranchStore) :
    ∀ (bs table : List TransBranchStore), b ∈ bs →
      ∃ c ∈ insertBranchesDoNothing table bs, sameBranchKey b c = true := by
  intro bs
  induction bs with
  | nil => intro table h; simp at h
  | cons b2 rest ih =>
    intro table hmem
    rcases List.mem_cons.mp hmem with hbb | hbrest
    · subst hbb
      rw [insertBranchesDoNothing_cons]
      by_cases hany : table.any (sameBranchKey b)
      · rw [if_pos hany]
        obtain ⟨c, hc, hbc⟩ := List.any_eq_true.mp hany
        exact ⟨c, insertBranchesDoNothing_mem rest table hc, hbc⟩
      · rw [if_neg hany]
        exact ⟨b, insertBranchesDoNothing_mem rest _ (List.mem_append_right _ (by simp)),
          sameBranchKey_refl b⟩
    · exact ih _ hbrest

/-! ### C3 -/

/-- C3: `MaySaveNewTrans` fails with `UniqueConflict` exactly when a
transaction with the same gid already exists, inserting nothing; when the gid
is absent it succeeds, inserts the global record and the branches with
do-nothing-on-conflict semantics, so a repeated call with the same gid yields
`UniqueConflict` and changes nothing, and each branch key exists exactly once
afterwards. -/
theorem maySaveNewTrans_idempotent (st : DBState) (global : TransGlobalStore)
    (branches : List TransBranchStore) :
    ((MaySaveNewTrans st global branches).2 = Except.error StoreError.UniqueConflict ↔
      ∃ r ∈ st.globals, r.gid = global.gid) ∧
    ((MaySaveNewTrans st global branches).2 = Except.error StoreError.UniqueConflict →
      (MaySaveNewTrans st global branches).1 = st) ∧
    ((∀ r ∈ st.globals, r.gid ≠ global.gid) →
      (MaySaveNewTrans st global branches).2 = Except.ok () ∧
      global ∈ (MaySaveNewTrans st global branches).1.globals ∧
      (∀ b ∈ branches, ∃ c ∈ (MaySaveNewTrans st global branches).1.branches,
        sameBranchKey b c = true) ∧
      MaySaveNewTrans (MaySaveNewTrans st global branches).1 global branches =
        ((MaySaveNewTrans st global branches).1, Except.error StoreError.UniqueConflict) ∧
      (∀ b ∈ branches, st.branches.countP (sameBranchKey b) = 0 →
        (MaySaveNewTrans st global branches).1.branches.countP (sameBranchKey b) = 1)) := by
  by_cases hany : (st.globals.any fun r => r.gid == global.gid) = true
  · have hres : MaySaveNewTrans st global branches =
        (st, Except.error StoreError.UniqueConflict) := by
      simp only [MaySaveNewTrans]
      rw [if_pos hany]
    rw [hres]
    refine ⟨?_, fun _ => rfl, ?_⟩
    · constructor
      · intro _
        obtain ⟨r, hr, hgid⟩ := List.any_eq_true.mp hany
        exact ⟨r, hr, by simpa using hgid⟩
      · intro _
        rfl
    · intro hnodup
      obtain ⟨r, hr, hgid⟩ := List.any_eq_true.mp hany
      exact absurd (by simpa using hgid) (hnodup r hr)
  · have hres : MaySaveNewTrans st global branches =
        ({ st with
           globals := st.globals ++ [global]
           branches := insertBranchesDoNothing st.branches branches }, Except.ok ()) := by
      simp only [MaySaveNewTrans]
      rw [if_neg hany]
    rw [hres]
    refine ⟨?_, ?_, ?_⟩
    · constructor
      · intro h
        exact absurd h (by simp)
      · intro ⟨r, hr, hgid⟩
        exact absurd (List.any_eq_true.mpr ⟨r, hr, by simpa using hgid⟩) hany
    · intro h
      exact absurd h (by simp)
    · intro _
      have hany2 : ((st.globals ++ [global]).any fun r => r.gid == global.gid) = true :=
        List.any_eq_true.mpr ⟨global, List.mem_append_right _ (by simp), by simp⟩
      refine ⟨rfl, List.mem_append_right _ (by simp), ?_, ?_, ?_⟩
      · intro b hb
        exact insertBranchesDoNothing_presence b branches st.branches hb
      · simp only [MaySaveNewTrans]
        rw [if_pos hany2]
      · intro b hb hcnt
        exact insertBranchesDoNothing_countP_creates b branches st.branches hb hcnt

/-- C3 (witness): creating the sample transaction in the empty store succeeds
and leaves exactly one row with the branch's key; the immediate retry returns
`UniqueConflict` without changes. -/
theorem maySaveNewTrans_idempotent_witness :
    (MaySaveNewTrans { globals := [], branches := [] } sampleRow [sampleBranch]).2 =
      Except.ok () ∧
    MaySaveNewTrans
        (MaySaveNewTrans { globals := [], branches := [] } sampleRow [sampleBranch]).1
        sampleRow [sampleBranch] =
      ((MaySaveNewTrans { globals := [], branches := [] } sampleRow [sampleBranch]).1,
        Except.error StoreError.UniqueConflict) ∧
    (MaySaveNewTrans { globals := [], branches := [] } sampleRow
        [sampleBranch]).1.branches.countP (sameBranchKey sampleBranch) = 1 := by
  have h := (maySaveNewTrans_idempotent { globals := [], branches := [] } sampleRow
    [sampleBranch]).2.2 (by decide)
  exact ⟨h.1, h.2.2.2.1, h.2.2.2.2 sampleBranch (by decide) (by decide)⟩

/-! ### C4 -/

theorem saveBranch_presence_preserved {b : TransBranchStore}
    (table : List TransBranchStore) (b2 : TransBranchStore)
    (h : ∃ c ∈ table, sameBranchKey b c = true) :
    ∃ c ∈ saveBranch table b2, sameBranchKey b c = true := by
  obtain ⟨c, hc, hbc⟩ := h
  unfold saveBranch
  by_cases hany : (table.any (sameBranchKey b2)) = true
  · rw [if_pos hany]
    cases hk : sameBranchKey b2 c with
    | true =>
      refine ⟨b2, List.mem_map.mpr ⟨c, hc, ?_⟩, ?_⟩
      · show (if sameBranchKey b2 c = true then b2 else c) = b2
        exact if_pos hk
      · rw [sameBranchKey_iff] at hbc hk ⊢
        obtain ⟨h1, h2, h3⟩ := hbc
        obtain ⟨h4, h5, h6⟩ := hk
        rw [← h4, ← h5, ← h6]
        exact ⟨h1, h2, h3⟩
    | false =>
      refine ⟨c, List.mem_map.mpr ⟨c, hc, ?_⟩, hbc⟩
      show (if sameBranchKey b2 c = true then b2 else c) = c
      rw [if_neg (by simp [hk])]
  · rw [if_neg hany]
    exact ⟨c, List.mem_append_left _ hc, hbc⟩

theorem saveBranch_presence_self (table : List TransBranchStore) (b : TransBranchStore) :
    ∃ c ∈ saveBranch table b, sameBranchKey b c = true := by
  unfold saveBranch
  by_cases hany : (table.any (sameBranchKey b)) = true
  · rw [if_pos hany]
    obtain ⟨c, hc, hbc⟩ := List.any_eq_true.mp hany
    refine ⟨b, List.mem_map.mpr ⟨c, hc, ?_⟩, sameBranchKey_refl b⟩
    show (if sameBranchKey b c = true then b else c) = b
    exact if_pos hbc
  · rw [if_neg hany]
    exact ⟨b, List.mem_append_right _ (by simp), sameBranchKey_refl b⟩

theorem saveBranches_presence_preserved (b : TransBranchStore) :
    ∀ (bs table : List TransBranchStore), (∃ c ∈ table, sameBranchKey b c = true) →
      ∃ c ∈ saveBranches table bs, sameBranchKey b c = true := by
  intro bs
  induction bs with
  | nil => exact fun table h => h
  | cons b2 rest ih =>
    intro table h
    have hfold : saveBranches table (b2 :: rest) = saveBranches (saveBranch table b2) rest := by
      simp only [saveBranches, List.foldl_cons]
    rw [hfold]
    exact ih _ (saveBranch_presence_preserved table b2 h)

theorem saveBranches_presence (b : TransBranchStore) :
    ∀ (bs table : List TransBranchStore), b ∈ bs →
      ∃ c ∈ saveBranches table bs, sameBranchKey b c = true := by
  intro bs
  induction bs with
  | nil => intro table h; simp at h
  | cons b2 rest ih =>
    intro table hmem
    have hfold : saveBranches table (b2 :: rest) = saveBranches (saveBranch table b2) rest := by
      simp only [saveBranches, List.foldl_cons]
    rw [hfold]
    rcases List.mem_cons.mp hmem with hbb | hbrest
    · subst hbb
      exact saveBranches_presence_preserved b rest _ (saveBranch_presence_self table b)
    · exact ih _ hbrest

/-- C4: `LockGlobalSaveBranches` fails with `NotFound` exactly when no global
row matches `(gid, expectedStatus)`, writing nothing in that case; when a row
matches, the branches are upserted in the same atomic state transition (the
global rows untouched, every branch key present afterwards). -/
theorem lockGlobalSaveBranches_spec (st : DBState) (gid status : String)
    (branches : List TransBranchStore) :
    ((LockGlobalSaveBranches st gid status branches).2 =
        Except.error StoreError.NotFound ↔
      ∀ r ∈ st.globals, ¬(r.gid = gid ∧ r.status = status)) ∧
    ((LockGlobalSaveBranches st gid status branches).2 =
        Except.error StoreError.NotFound →
      (LockGlobalSaveBranches st gid status branches).1 = st) ∧
    ((∃ r ∈ st.globals, r.gid = gid ∧ r.status = status) →
      (LockGlobalSaveBranches st gid status branches).2 = Except.ok () ∧
      (LockGlobalSaveBranches st gid status branches).1.globals = st.globals ∧
      (LockGlobalSaveBranches st gid status branches).1.branches =
        saveBranches st.branches branches ∧
      (∀ b ∈ branches, ∃ c ∈ (LockGlobalSaveBranches st gid status branches).1.branches,
        sameBranchKey b c = true)) := by
  cases hfind : st.globals.find? fun r => r.gid == gid && r.status == status with
  | none =>
    have hres : LockGlobalSaveBranches st gid status branches =
        (st, Except.error StoreError.NotFound) := by
      simp only [LockGlobalSaveBranches, hfind]
    rw [hres]
    have hall := List.find?_eq_none.mp hfind
    refine ⟨?_, fun _ => rfl, ?_⟩
    · constructor
      · intro _ r hr
        have := hall r hr
        simpa using this
      · intro _
        rfl
    · intro ⟨r, hr, hgid, hstatus⟩
      exact absurd (by simp [hgid, hstatus]) (hall r hr)
  | some r0 =>
    have hres : LockGlobalSaveBranches st gid status branches =
        ({ st with branches := saveBranches st.branches branches }, Except.ok ()) := by
      simp only [LockGlobalSaveBranches, hfind]
    rw [hres]
    refine ⟨?_, ?_, ?_⟩
    · constructor
      · intro h
        exact absurd h (by simp)
      · intro hall
        have hr0 := List.find?_some hfind
        have hmem := List.mem_of_find?_eq_some hfind
        simp only [Bool.and_eq_true, beq_iff_eq] at hr0
        exact absurd hr0 (hall r0 hmem)
    · intro h
      exact absurd h (by simp)
    · intro _
      exact ⟨rfl, rfl, rfl, fun b hb => saveBranches_presence b branches st.branches hb⟩

/-- C4 (witness): with the sample row in status `prepared`, appending the
sample branch succeeds and the branch key is present; the theorem's `NotFound`
direction is discharged by the same application. -/
theorem lockGlobalSaveBranches_spec_witness :
    (LockGlobalSaveBranches sampleState "g1" "prepared" [sampleBranch]).2 = Except.ok () ∧
    ∃ c ∈ (LockGlobalSaveBranches sampleState "g1" "prepared" [sampleBranch]).1.branches,
      sameBranchKey sampleBranch c = true := by
  have h := (lockGlobalSaveBranches_spec sampleState "g1" "prepared" [sampleBranch]).2.2
    ⟨sampleRow, by decide, by decide, by decide⟩
  exact ⟨h.1, h.2.2.2 sampleBranch (by decide)⟩

/-! ### Sorting lemmas for the cursor scan (C6) -/

theorem insertIdDesc_perm (r : TransGlobalStore) :
    ∀ l : List TransGlobalStore, (insertIdDesc r l).Perm (r :: l) := by
  intro l
  induction l with
  | nil => exact List.Perm.refl _
  | cons s l ih =>
    unfold insertIdDesc
    by_cases h : s.id ≤ r.id
    · rw [if_pos h]
    · rw [if_neg h]
      exact (ih.cons s).trans (List.Perm.swap r s l)

theorem sortIdDesc_perm : ∀ l : List TransGlobalStore, (sortIdDesc l).Perm l := by
  intro l
  induction l with
  | nil => exact List.Perm.refl _
  | cons r l ih =>
    unfold sortIdDesc
    exact (insertIdDesc_perm r (sortIdDesc l)).trans (ih.cons r)

theorem insertIdDesc_pairwise (r : TransGlobalStore) :
    ∀ l : List TransGlobalStore, l.Pairwise (fun a b => b.id ≤ a.id) →
      (insertIdDesc r l).Pairwise (fun a b => b.id ≤ a.id) := by
  intro l
  induction l with
  | nil => intro _; simp [insertIdDesc]
  | cons s l ih =>
    intro h
    unfold insertIdDesc
    by_cases hle : s.id ≤ r.id
    · rw [if_pos hle]
      refine List.Pairwise.cons ?_ h
      intro b hb
      rcases List.mem_cons.mp hb with hbs | hbl
      · rw [hbs]; exact hle
      · exact Nat.le_trans (List.rel_of_pairwise_cons h hbl) hle
    · rw [if_neg hle]
      refine List.Pairwise.cons ?_ (ih (List.Pairwise.sublist (List.sublist_cons_self s l) h))
      intro b hb
      have hb2 := (insertIdDesc_perm r l).mem_iff.mp hb
      rcases List.mem_cons.mp hb2 with hbr | hbl
      · rw [hbr]; omega
      · exact List.rel_of_pairwise_cons h hbl

theorem sortIdDesc_pairwise :
    ∀ l : List TransGlobalStore, (sortIdDesc l).Pairwise (fun a b => b.id ≤ a.id) := by
  intro l
  induction l with
  | nil => simp [sortIdDesc]
  | cons r l ih =>
    unfold sortIdDesc
    exact insertIdDesc_pairwise r (sortIdDesc l) ih

theorem pairwise_lt_of_le_nodup {l : List TransGlobalStore}
    (hle : l.Pairwise fun a b => b.id ≤ a.id)
    (hnd : (l.map fun r => r.id).Nodup) :
    l.Pairwise fun a b => b.id < a.id := by
  have hne : l.Pairwise fun a b => a.id ≠ b.id := List.pairwise_map.mp hnd
  exact (hle.and hne).imp fun h => Nat.lt_of_le_of_ne h.1 fun heq => h.2 heq.symm

/-- Two id-strictly-descending lists that are permutations of each other are
equal: the relation is vacuously antisymmetric. -/
theorem sortedDesc_unique {l1 l2 : List TransGlobalStore} (hp : l1.Perm l2)
    (h1 : l1.Pairwise fun a b => b.id < a.id)
    (h2 : l2.Pairwise fun a b => b.id < a.id) : l1 = l2 := by
  have : IsAntisymm TransGlobalStore (fun a b => b.id < a.id) :=
    ⟨fun a b h h2 => absurd (Nat.lt_trans h h2) (Nat.lt_irrefl _)⟩
  exact List.eq_of_perm_of_sorted hp h1 h2

theorem sortIdDesc_nodup_ids {l : List TransGlobalStore}
    (hnd : (l.map fun r => r.id).Nodup) :
    ((sortIdDesc l).map fun r => r.id).Nodup :=
  (((sortIdDesc_perm l).map fun r => r.id).symm).nodup hnd

/-- With distinct ids, sorting commutes with row filtering. -/
theorem sortIdDesc_filter {l : List TransGlobalStore}
    (hnd : (l.map fun r => r.id).Nodup) (p : TransGlobalStore → Bool) :
    sortIdDesc (l.filter p) = (sortIdDesc l).filter p := by
  have hndf : ((l.filter p).map fun r => r.id).Nodup :=
    List.Nodup.sublist (List.Sublist.map _ (List.filter_sublist l)) hnd
  apply sortedDesc_unique
  · exact (sortIdDesc_perm (l.filter p)).trans
      ((List.Perm.filter p (sortIdDesc_perm l)).symm)
  · exact pairwise_lt_of_le_nodup (sortIdDesc_pairwise _)
      (sortIdDesc_nodup_ids hndf)
  · refine pairwise_lt_of_le_nodup (List.Pairwise.filter p (sortIdDesc_pairwise l)) ?_
    exact List.Nodup.sublist (List.Sublist.map _ (List.filter_sublist _))
      (sortIdDesc_nodup_ids hnd)

/-- In an id-strictly-descending list, the rows with id below the id of the
k-th row are exactly the rows after position k. -/
theorem filter_lt_getElem_eq_drop :
    ∀ (T : List TransGlobalStore), T.Pairwise (fun a b => b.id < a.id) →
      ∀ (k : Nat) (hk : k < T.length),
        (T.filter fun r => r.id < T[k].id) = T.drop (k + 1) := by
  intro T
  induction T with
  | nil => intro _ k hk; simp at hk
  | cons a T2 ih =>
    intro h k hk
    cases k with
    | zero =>
      simp only [List.getElem_cons_zero, List.drop_succ_cons, List.drop_zero]
      rw [List.filter_cons_of_neg (by simp)]
      rw [List.filter_eq_self]
      intro b hb
      simpa using List.rel_of_pairwise_cons h hb
    | succ k =>
      have hk2 : k < T2.length := by simpa using hk
      simp only [List.getElem_cons_succ, List.drop_succ_cons]
      rw [List.filter_cons_of_neg ?hneg]
      case hneg =>
        have : T2[k].id < a.id := List.rel_of_pairwise_cons h (List.getElem_mem hk2)
        simp
        omega
      exact ih (List.Pairwise.sublist (List.sublist_cons_self a T2) h) k hk2

theorem getLast!_eq_getLast (l : List TransGlobalStore) (h : l ≠ []) :
    l.getLast! = l.getLast h := by
  cases l with
  | nil => exact absurd rfl h
  | cons a as => rfl

/-- With distinct ids, one scan call pages through the id-descending sorted
view of the table. -/
theorem ScanTransGlobalStores_eq (st : DBState)
    (hnd : (st.globals.map fun r => r.id).Nodup) (pos : Option Nat) (limit : Nat) :
    ScanTransGlobalStores st pos limit =
      ((((sortIdDesc st.globals).filter fun r => r.id < pos.getD maxInt64).take limit),
       if (((sortIdDesc st.globals).filter fun r =>
            r.id < pos.getD maxInt64).take limit).length < limit then
         none
       else
         some (((((sortIdDesc st.globals).filter fun r =>
           r.id < pos.getD maxInt64).take limit)).getLast!).id) := by
  simp only [ScanTransGlobalStores]
  rw [sortIdDesc_filter hnd]
  by_cases h : ((((sortIdDesc st.globals).filter fun r =>
      r.id < pos.getD maxInt64).take limit).length < limit)
  · rw [if_pos h, if_pos h]
  · rw [if_neg h, if_neg h]

theorem scanAll_zero (st : DBState) (limit : Nat) (pos : Option Nat) :
    scanAll st limit 0 pos = ([], pos) := rfl

theorem scanAll_succ (st : DBState) (limit fuel : Nat) (pos : Option Nat) :
    scanAll st limit (fuel + 1) pos =
      match (ScanTransGlobalStores st pos limit).2 with
      | none => ((ScanTransGlobalStores st pos limit).1, none)
      | some p =>
        ((ScanTransGlobalStores st pos limit).1 ++ (scanAll st limit fuel (some p)).1,
          (scanAll st limit fuel (some p)).2) := rfl

/-- The scan loop drains the whole filtered sorted view, given enough fuel. -/
theorem scanAll_drains (st : DBState) (limit : Nat) (hlim : 0 < limit)
    (hnd : (st.globals.map fun r => r.id).Nodup) :
    ∀ (fuel : Nat) (pos : Option Nat),
      ((sortIdDesc st.globals).filter fun r => r.id < pos.getD maxInt64).length <
        fuel * limit →
      scanAll st limit fuel pos =
        (((sortIdDesc st.globals).filter fun r => r.id < pos.getD maxInt64), none) := by
  intro fuel
  induction fuel with
  | zero =>
    intro pos h
    simp at h
  | succ n ih =>
    intro pos h
    have hTstrict : (((sortIdDesc st.globals).filter fun r =>
        r.id < pos.getD maxInt64)).Pairwise fun a b => b.id < a.id := by
      refine pairwise_lt_of_le_nodup (List.Pairwise.filter _ (sortIdDesc_pairwise _)) ?_
      exact List.Nodup.sublist (List.Sublist.map _ (List.filter_sublist _))
        (sortIdDesc_nodup_ids hnd)
    by_cases hlt : (((sortIdDesc st.globals).filter fun r =>
        r.id < pos.getD maxInt64)).length < limit
    · have htake : (((sortIdDesc st.globals).filter fun r =>
          r.id < pos.getD maxInt64)).take limit =
          ((sortIdDesc st.globals).filter fun r => r.id < pos.getD maxInt64) :=
        List.take_of_length_le (Nat.le_of_lt hlt)
      rw [scanAll_succ, ScanTransGlobalStores_eq st hnd pos limit]
      rw [htake, if_pos hlt]
    · have hlen : limit ≤ (((sortIdDesc st.globals).filter fun r =>
          r.id < pos.getD maxInt64)).length := Nat.le_of_not_lt hlt
      have htakelen : ((((sortIdDesc st.globals).filter fun r =>
          r.id < pos.getD maxInt64)).take limit).length = limit := by
        rw [List.length_take]
        omega
      have hnotlt : ¬(((((sortIdDesc st.globals).filter fun r =>
          r.id < pos.getD maxInt64)).take limit).length < limit) := by
        rw [htakelen]
        omega
      rw [scanAll_succ, ScanTransGlobalStores_eq st hnd pos limit]
      rw [if_neg hnotlt]
      have hne : ((((sortIdDesc st.globals).filter fun r =>
          r.id < pos.getD maxInt64)).take limit) ≠ [] := by
        intro heq
        rw [heq] at htakelen
        simp at htakelen
        omega
      have hk : limit - 1 < (((sortIdDesc st.globals).filter fun r =>
          r.id < pos.getD maxInt64)).length := by omega
      have hlast : (((((sortIdDesc st.globals).filter fun r =>
          r.id < pos.getD maxInt64)).take limit)).getLast! =
          (((sortIdDesc st.globals).filter fun r => r.id < pos.getD maxInt64))[limit - 1] := by
        rw [getLast!_eq_getLast _ hne, List.getLast_eq_getElem _ hne]
        have : (((((sortIdDesc st.globals).filter fun r =>
            r.id < pos.getD maxInt64)).take limit)).length - 1 = limit - 1 := by
          rw [htakelen]
        simp only [this]
        exact List.getElem_take _
      rw [hlast]
      have hmemk : (((sortIdDesc st.globals).filter fun r =>
          r.id < pos.getD maxInt64))[limit - 1] ∈
          ((sortIdDesc st.globals).filter fun r => r.id < pos.getD maxInt64) :=
        List.getElem_mem hk
      have hklid : ((((sortIdDesc st.globals).filter fun r =>
          r.id < pos.getD maxInt64))[limit - 1]).id < pos.getD maxInt64 := by
        have := (List.mem_filter.mp hmemk).2
        simpa using this
      have hfilter_next : ((sortIdDesc st.globals).filter fun r =>
          r.id < (some ((((sortIdDesc st.globals).filter fun r =>
            r.id < pos.getD maxInt64))[limit - 1]).id).getD maxInt64) =
          (((sortIdDesc st.globals).filter fun r => r.id < pos.getD maxInt64)).drop limit := by
        simp only [Option.getD_some]
        have hcomm : (((sortIdDesc st.globals).filter fun r =>
            r.id < pos.getD maxInt64)).filter (fun r =>
              r.id < ((((sortIdDesc st.globals).filter fun r =>
                r.id < pos.getD maxInt64))[limit - 1]).id) =
            (sortIdDesc st.globals).filter (fun r =>
              r.id < ((((sortIdDesc st.globals).filter fun r =>
                r.id < pos.getD maxInt64))[limit - 1]).id) := by
          rw [List.filter_filter]
          apply List.filter_congr
          intro r _
          cases hq : (decide (r.id < ((((sortIdDesc st.globals).filter fun r =>
              r.id < pos.getD maxInt64))[limit - 1]).id) : Bool) with
          | false => simp
          | true =>
            simp only [hq, Bool.true_and]
            rw [decide_eq_true_eq] at hq
            rw [decide_eq_true_eq]
            omega
        rw [← hcomm]
        have hdrop := filter_lt_getElem_eq_drop _ hTstrict (limit - 1) hk
        have hsucc : limit - 1 + 1 = limit := by omega
        rw [hsucc] at hdrop
        exact hdrop
      have hreclen : (((sortIdDesc st.globals).filter fun r =>
          r.id < (some ((((sortIdDesc st.globals).filter fun r =>
            r.id < pos.getD maxInt64))[limit - 1]).id).getD maxInt64)).length <
          n * limit := by
        rw [hfilter_next, List.length_drop]
        have hmul : (n + 1) * limit = n * limit + limit := by ring
        omega
      have hrec := ih _ hreclen
      rw [hfilter_next] at hrec
      show ((((sortIdDesc st.globals).filter fun r =>
          r.id < pos.getD maxInt64)).take limit ++
          (scanAll st limit n (some ((((sortIdDesc st.globals).filter fun r =>
            r.id < pos.getD maxInt64))[limit - 1]).id)).1,
          (scanAll st limit n (some ((((sortIdDesc st.globals).filter fun r =>
            r.id < pos.getD maxInt64))[limit - 1]).id)).2) =
        (((sortIdDesc st.globals).filter fun r => r.id < pos.getD maxInt64), none)
      rw [hrec]
      simp [List.take_append_drop]

/-! ### C6 -/

/-- C6: `ScanTransGlobalStores` pages through the transactions: each call
returns at most `limit` rows, all stored rows with id strictly below the
cursor (unbounded when the cursor is empty), in strictly decreasing id order;
the cursor is set to the last returned row's id after a full page and cleared
after a short page; and repeated calls from the default (empty) cursor return
every transaction exactly once, in strictly decreasing id order, terminating
with an empty cursor. -/
theorem scanTransGlobalStores_pagination (st : DBState) (limit : Nat) (hlim : 0 < limit)
    (hnd : (st.globals.map fun r => r.id).Nodup)
    (hbound : ∀ r ∈ st.globals, r.id < maxInt64) :
    (∀ pos : Option Nat,
      (∀ r ∈ (ScanTransGlobalStores st pos limit).1,
        r ∈ st.globals ∧ ∀ c : Nat, pos = some c → r.id < c) ∧
      (ScanTransGlobalStores st pos limit).1.Pairwise (fun a b => b.id < a.id) ∧
      (ScanTransGlobalStores st pos limit).1.length ≤ limit ∧
      ((ScanTransGlobalStores st pos limit).1.length = limit →
        (ScanTransGlobalStores st pos limit).2 =
          some ((ScanTransGlobalStores st pos limit).1.getLast!).id) ∧
      ((ScanTransGlobalStores st pos limit).1.length < limit →
        (ScanTransGlobalStores st pos limit).2 = none)) ∧
    (scanAll st limit (st.globals.length + 1) none).1.Perm st.globals ∧
    (scanAll st limit (st.globals.length + 1) none).1.Pairwise (fun a b => b.id < a.id) ∧
    (scanAll st limit (st.globals.length + 1) none).2 = none := by
  have hSperm : (sortIdDesc st.globals).Perm st.globals := sortIdDesc_perm _
  have hSfull : ((sortIdDesc st.globals).filter fun r =>
      r.id < (none : Option Nat).getD maxInt64) = sortIdDesc st.globals := by
    rw [List.filter_eq_self]
    intro r hr
    rw [decide_eq_true_eq]
    exact hbound r (hSperm.mem_iff.mp hr)
  have hdrain := scanAll_drains st limit hlim hnd (st.globals.length + 1) none ?hfuel
  case hfuel =>
    rw [hSfull, hSperm.length_eq]
    have h1 : st.globals.length + 1 ≤ (st.globals.length + 1) * limit :=
      Nat.le_mul_of_pos_right _ hlim
    omega
  rw [hSfull] at hdrain
  refine ⟨?_, ?_, ?_, ?_⟩
  · intro pos
    have hTstrict : (((sortIdDesc st.globals).filter fun r =>
        r.id < pos.getD maxInt64)).Pairwise fun a b => b.id < a.id := by
      refine pairwise_lt_of_le_nodup (List.Pairwise.filter _ (sortIdDesc_pairwise _)) ?_
      exact List.Nodup.sublist (List.Sublist.map _ (List.filter_sublist _))
        (sortIdDesc_nodup_ids hnd)
    rw [ScanTransGlobalStores_eq st hnd pos limit]
    refine ⟨?_, ?_, ?_, ?_, ?_⟩
    · intro r hr
      have hr2 : r ∈ ((sortIdDesc st.globals).filter fun r => r.id < pos.getD maxInt64) :=
        (List.take_sublist _ _).mem hr
      obtain ⟨hrS, hrlt⟩ := List.mem_filter.mp hr2
      refine ⟨hSperm.mem_iff.mp hrS, ?_⟩
      intro c hc
      rw [decide_eq_true_eq] at hrlt
      rw [hc] at hrlt
      simpa using hrlt
    · exact List.Pairwise.sublist (List.take_sublist _ _) hTstrict
    · show (List.take limit _).length ≤ limit
      rw [List.length_take]
      omega
    · intro hfull
      have hfull2 : (List.take limit ((sortIdDesc st.globals).filter fun r =>
          r.id < pos.getD maxInt64)).length = limit := hfull
      show (if (List.take limit _).length < limit then none else some _) = some _
      rw [if_neg (by omega)]
    · intro hshort
      show (if (List.take limit _).length < limit then none else some _) = none
      rw [if_pos hshort]
  · rw [hdrain]
    exact hSperm
  · rw [hdrain]
    exact pairwise_lt_of_le_nodup (sortIdDesc_pairwise _) (sortIdDesc_nodup_ids hnd)
  · rw [hdrain]

/-- C6 (witness): scanning the two-row sample state with page size 1 from the
default cursor returns every transaction exactly once and ends with an empty
cursor. -/
theorem scanTransGlobalStores_pagination_witness :
    (scanAll sampleState2 1 (sampleState2.globals.length + 1) none).1.Perm
      sampleState2.globals ∧
    (scanAll sampleState2 1 (sampleState2.globals.length + 1) none).2 = none := by
  have h := scanTransGlobalStores_pagination sampleState2 1 (by decide) (by decide)
    (by decide)
  exact ⟨h.2.1, h.2.2.2⟩

end DtmSql
